import Mathlib

/-!
Verification of the Portfolio-Chatbot chat request gateway.

This file shallowly embeds the backend services of the repository
(cache normalizer, usage quota, session store, rate-limit middleware,
status route, tool-call validator and the chat route orchestrator)
as pure Lean functions over explicit store states, and proves the
specification claims about them.

Conventions used throughout:
- Redis is modelled as explicit state passed through each operation.
- JavaScript strings are modelled through their character lists
  (`String.data`); the ASCII fragment of `toLowerCase` is modelled,
  which is exact for every string the claims quantify over.
- `Date` values are modelled by a calendar structure (year, month,
  day, milliseconds of day) mirroring the local-time fields that
  `setMonth`/`setDate`/`setHours` manipulate.
-/

set_option maxHeartbeats 1000000

namespace PortfolioChatbot

/-! ## Character classes of the JavaScript regexes used by the backend -/

/-- The JavaScript regex class `\s` (whitespace), by code point.
Covers the ASCII whitespace characters and the Unicode space
characters that JavaScript includes in `\s`. -/
def isJsSpace (c : Char) : Bool :=
  c.toNat = 32 || c.toNat = 9 || c.toNat = 10 || c.toNat = 13 ||
  c.toNat = 11 || c.toNat = 12 || c.toNat = 0xA0 || c.toNat = 0x1680 ||
  (0x2000 ≤ c.toNat && c.toNat ≤ 0x200A) || c.toNat = 0x2028 || c.toNat = 0x2029 ||
  c.toNat = 0x202F || c.toNat = 0x205F || c.toNat = 0x3000 || c.toNat = 0xFEFF

/-- The JavaScript regex class `\w` (word character): ASCII letters,
digits and underscore, by code point. -/
def isJsWordChar (c : Char) : Bool :=
  (97 ≤ c.toNat && c.toNat ≤ 122) || (65 ≤ c.toNat && c.toNat ≤ 90) ||
  (48 ≤ c.toNat && c.toNat ≤ 57) || c.toNat = 95

/-- ASCII uppercase letter test, used by the `toLowerCase` model. -/
def isAsciiUpper (c : Char) : Bool := 65 ≤ c.toNat && c.toNat ≤ 90

/-- ASCII fragment of `String.prototype.toLowerCase`, per character. -/
def lowerChar (c : Char) : Char :=
  if isAsciiUpper c then Char.ofNat (c.toNat + 32) else c

/-- ASCII fragment of `String.prototype.toLowerCase` on a character list. -/
def lowerStr (l : List Char) : List Char := l.map lowerChar

/-- Leading-whitespace removal, the first half of `String.prototype.trim`. -/
def trimLeft (l : List Char) : List Char := l.dropWhile isJsSpace

/-- `String.prototype.trim`: drop whitespace from both ends. -/
def jsTrim (l : List Char) : List Char :=
  ((trimLeft l).reverse.dropWhile isJsSpace).reverse

/-- The replacement `replace(/\s+/g, ' ')`: every maximal run of
whitespace characters becomes a single space.  The Boolean argument
records whether the previous character belonged to a whitespace run. -/
def collapseFrom (prevSpace : Bool) : List Char → List Char
  | [] => []
  | c :: rest =>
    if isJsSpace c then
      if prevSpace then collapseFrom true rest
      else ' ' :: collapseFrom true rest
    else c :: collapseFrom false rest

/-- `replace(/\s+/g, ' ')` on a character list. -/
def collapseWs (l : List Char) : List Char := collapseFrom false l

/-- Adjacent characters are never both whitespace (whitespace runs have
been collapsed). -/
def NoWsRun (a b : Char) : Prop := ¬(isJsSpace a = true ∧ isJsSpace b = true)

/-! ## Cache layer: question normalization (services/cache.ts)

`normalizeQuestion` lowercases, trims, removes `[^\w\s]`, then
collapses whitespace runs — in exactly that order. -/

/-- Embeds `normalizeQuestion` from the cache service:
`question.toLowerCase().trim().replace(/[^\w\s]/g, '').replace(/\s+/g, ' ')`. -/
def normalizeQuestion (s : String) : String :=
  ⟨collapseWs ((jsTrim (lowerStr s.data)).filter (fun c => isJsWordChar c || isJsSpace c))⟩

/-- `String.prototype.trim` as a `String` operation, used to state how far
`normalizeQuestion` is from being idempotent. -/
def jsTrimString (s : String) : String := ⟨jsTrim s.data⟩

/-! ## Dates

The usage service manipulates JavaScript `Date` values through their
local-time calendar fields.  A date is modelled by those fields directly:
year, zero-based month (as returned by `getMonth`), one-based day of month
(as returned by `getDate`) and milliseconds elapsed within the day. -/

/-- Local-time calendar view of a JavaScript `Date`. -/
structure JsDate where
  year : Int
  month : Nat
  day : Nat
  msOfDay : Nat
deriving DecidableEq, Repr

/-- Timestamp comparison `new Date(a) < new Date(b)`: lexicographic on the
calendar fields (equivalent to comparing epoch milliseconds). -/
def JsDate.before (a b : JsDate) : Bool :=
  if a.year = b.year then
    if a.month = b.month then
      if a.day = b.day then decide (a.msOfDay < b.msOfDay)
      else decide (a.day < b.day)
    else decide (a.month < b.month)
  else decide (a.year < b.year)

/-- Gregorian leap-year rule used by JavaScript `Date` normalization. -/
def isLeapYear (y : Int) : Bool :=
  decide (y % 4 = 0) && (decide (y % 100 ≠ 0) || decide (y % 400 = 0))

/-- Number of days of the zero-based month `m` of year `y`. -/
def daysInMonth (y : Int) (m : Nat) : Nat :=
  if m = 1 then (if isLeapYear y then 29 else 28)
  else if m = 3 || m = 5 || m = 8 || m = 10 then 30
  else 31

/-- Embeds the mutation sequence of `checkAndResetMonthly`:
`d.setMonth(d.getMonth() + 1); d.setDate(1); d.setHours(0, 0, 0, 0)`.
JavaScript `setMonth` first moves to the next month and then normalizes an
out-of-range day-of-month by rolling it forward into the following month
(for example January 31 + one month = February 31 = March 3); only after
that normalization does `setDate(1)` run. -/
def nextResetDate (now : JsDate) : JsDate :=
  let total := now.month + 1
  let y1 : Int := now.year + (total / 12 : Nat)
  let m1 := total % 12
  if now.day > daysInMonth y1 m1 then
    if m1 = 11 then { year := y1 + 1, month := 0, day := 1, msOfDay := 0 }
    else { year := y1, month := m1 + 1, day := 1, msOfDay := 0 }
  else { year := y1, month := m1, day := 1, msOfDay := 0 }

/-- Modelled from the spec: the first instant of the calendar month after
`now`, the value the specification says `resetAt` is advanced to.  Stated
separately so that the behaviour of `nextResetDate` can be compared to it. -/
def firstOfNextMonth (now : JsDate) : JsDate :=
  if now.month = 11 then { year := now.year + 1, month := 0, day := 1, msOfDay := 0 }
  else { year := now.year, month := now.month + 1, day := 1, msOfDay := 0 }

/-! ## Usage quota (services/usage.ts) -/

/-- Default of `config.MAX_MONTHLY_CONVERSATIONS`. -/
def MAX_MONTHLY_CONVERSATIONS : Nat := 500

/-- The two usage keys of the Redis store: `chatbot:usage:count` (0 when
unset, as `redis.get || 0` reads it) and `chatbot:usage:reset_at`. -/
structure UsageState where
  count : Nat
  resetAt : Option JsDate
deriving DecidableEq, Repr

namespace usageService

/-- Embeds `usageService.checkAndResetMonthly`: when `reset_at` is unset or
parses to a moment strictly before now, write `count = 0` and `reset_at =
nextResetDate now`; otherwise leave the store untouched. -/
def checkAndResetMonthly (u : UsageState) (now : JsDate) : UsageState :=
  match u.resetAt with
  | none => { count := 0, resetAt := some (nextResetDate now) }
  | some r =>
    if JsDate.before r now then { count := 0, resetAt := some (nextResetDate now) }
    else u

/-- Embeds `usageService.isWithinLimit`: run the lazy monthly reset, then
compare the (possibly reset) counter against the limit. -/
def isWithinLimit (u : UsageState) (now : JsDate) : Bool × UsageState :=
  let u' := checkAndResetMonthly u now
  (decide (u'.count < MAX_MONTHLY_CONVERSATIONS), u')

/-- Embeds `usageService.increment`: `redis.incr` of the usage counter. -/
def increment (u : UsageState) : UsageState := { u with count := u.count + 1 }

end usageService

/-! ## Session store (services/session.ts) -/

/-- `SESSION_TTL`: 7 days in seconds. -/
def SESSION_TTL : Nat := 60 * 60 * 24 * 7

/-- Per-session message cap. -/
def MAX_MESSAGES_PER_SESSION : Nat := 30

/-- The stored session record (`SessionInfo` of the shared types); the ISO
timestamp strings are modelled as epoch seconds. -/
structure SessionInfo where
  sessionId : String
  messageCount : Nat
  createdAt : Nat
  lastActivityAt : Nat
deriving DecidableEq, Repr

/-- The session keyspace of the Redis store.  Each entry carries the record
together with its absolute expiry deadline (epoch seconds), the deadline
`redis.set(key, session, ex := SESSION_TTL)` installs.  TTL eviction itself
is not modelled; no claim depends on it. -/
def SessionStore : Type := String → Option (SessionInfo × Nat)

namespace sessionService

/-- Embeds `sessionService.getSession`: `redis.get` of the record. -/
def getSession (store : SessionStore) (sessionId : String) : Option SessionInfo :=
  (store sessionId).map Prod.fst

/-- Embeds `sessionService.createSession`: a fresh record with
`messageCount = 0`, written with a full `SESSION_TTL` expiry. -/
def createSession (store : SessionStore) (sessionId : String) (now : Nat) :
    SessionInfo × SessionStore :=
  let session : SessionInfo :=
    { sessionId := sessionId, messageCount := 0, createdAt := now, lastActivityAt := now }
  (session, fun k => if k = sessionId then some (session, now + SESSION_TTL) else store k)

/-- Embeds `sessionService.incrementMessageCount`: read (creating the record
when absent), bump `messageCount`, refresh `lastActivityAt`, and write the
record back with `ex := SESSION_TTL`.  Returns the new count and store. -/
def incrementMessageCount (store : SessionStore) (sessionId : String) (now : Nat) :
    Nat × SessionStore :=
  let read : SessionInfo × SessionStore :=
    match getSession store sessionId with
    | some s => (s, store)
    | none => createSession store sessionId now
  let session' : SessionInfo :=
    { read.1 with messageCount := read.1.messageCount + 1, lastActivityAt := now }
  (session'.messageCount,
    fun k => if k = sessionId then some (session', now + SESSION_TTL) else read.2 k)

/-- Embeds `sessionService.hasExceededLimit`: missing records have not
exceeded the limit; stored records are compared against the cap. -/
def hasExceededLimit (store : SessionStore) (sessionId : String) : Bool :=
  match getSession store sessionId with
  | none => false
  | some s => decide (s.messageCount ≥ MAX_MESSAGES_PER_SESSION)

end sessionService

/-! ## Rate-limit middleware (middleware/rateLimit.ts) -/

/-- The per-IP Redis bucket: counter value (absent for a fresh key) and the
remaining TTL registered by `redis.expire`, in seconds. -/
structure RateLimitBucket where
  count : Option Nat
  ttlSec : Option Nat
deriving DecidableEq, Repr

/-- Which of the three Redis calls of the middleware throws, if any. -/
inductive StoreFailure where
  | atGet
  | atIncr
  | atExpire
deriving DecidableEq, Repr

inductive RateLimitOutcome where
  | allowed
  | rejected429
deriving DecidableEq, Repr

/-- Embeds `rateLimitMiddleware`: read the counter (`|| 0`); reject with 429
when it has reached the limit; otherwise `incr`, and `expire` exactly when
the incremented value is 1.  A throwing Redis call lands in the catch
handler, which calls `next()` (fail open).  A call that throws is assumed
not to have mutated the store. -/
def rateLimitMiddleware (bucket : RateLimitBucket) (limit windowMs : Nat)
    (failure : Option StoreFailure) : RateLimitOutcome × RateLimitBucket :=
  match failure with
  | some .atGet => (.allowed, bucket)
  | _ =>
    let count := bucket.count.getD 0
    if count ≥ limit then (.rejected429, bucket)
    else
      match failure with
      | some .atIncr => (.allowed, bucket)
      | _ =>
        let newCount := count + 1
        let bucket₁ : RateLimitBucket := { bucket with count := some newCount }
        if newCount = 1 then
          match failure with
          | some .atExpire => (.allowed, bucket₁)
          | _ => (.allowed, { bucket₁ with ttlSec := some (windowMs / 1000) })
        else (.allowed, bucket₁)

/-- Whether the execution of the middleware on this bucket actually reaches
the Redis call designated as throwing (`incr` only runs under the limit;
`expire` only runs on the first increment of a fresh key). -/
def throwsDuring (bucket : RateLimitBucket) (limit : Nat)
    (failure : Option StoreFailure) : Prop :=
  match failure with
  | none => False
  | some .atGet => True
  | some .atIncr => bucket.count.getD 0 < limit
  | some .atExpire => bucket.count.getD 0 < limit ∧ bucket.count.getD 0 + 1 = 1

/-! ## Status route (routes/status.ts) -/

/-- Embeds `statusRoutes.get('/')`: run `isWithinLimit` under a timeout; on
success answer its verdict; when the quota check throws or times out
(`storeFails`), answer `available = !isProduction`. -/
def statusAvailability (u : UsageState) (now : JsDate) (storeFails : Bool)
    (isProduction : Bool) : Bool × UsageState :=
  if storeFails then (!isProduction, u)
  else usageService.isWithinLimit u now

/-! ## Input sanitization (utils/toolValidation.ts)

`sanitizeParamValue` runs, in order: null-byte removal, control-character
removal, `<script>`-block removal, HTML-tag removal, whitespace collapsing,
and a final trim. -/

/-- The control characters stripped by the regex
`[\x01-\x08\x0B-\x0C\x0E-\x1F\x7F]` (newline and tab survive). -/
def isStrippedCtrl (c : Char) : Bool :=
  (1 ≤ c.toNat && c.toNat ≤ 8) || c.toNat = 11 || c.toNat = 12 ||
  (14 ≤ c.toNat && c.toNat ≤ 31) || c.toNat = 127

/-- Case-insensitive comparison of a lowercase pattern against the start of
the input (the script-tag regexes carry the `i` flag). -/
def matchesCI : List Char → List Char → Bool
  | [], _ => true
  | _ :: _, [] => false
  | p :: ps, c :: cs => decide (lowerChar c = p) && matchesCI ps cs

/-- Start-of-input test for `<script\b` (case-insensitive `<script` followed
by a word boundary). -/
def scriptOpenAt (l : List Char) : Bool :=
  matchesCI ['<', 's', 'c', 'r', 'i', 'p', 't'] l &&
    (match l.drop 7 with
     | [] => true
     | d :: _ => !isJsWordChar d)

/-- Scan for the first case-insensitive occurrence of the 9 characters of a
script-closing tag; return the remainder after it. -/
def afterScriptClose : List Char → Option (List Char)
  | [] => none
  | c :: rest =>
    if matchesCI ['<', '/', 's', 'c', 'r', 'i', 'p', 't', '>'] (c :: rest) then
      some (List.drop 8 rest)
    else afterScriptClose rest

/-- The replacement of the block regex
`<script\b[^<]*(?:(?!<\/script>)<[^<]*)*<\/script>` with the `gi` flags:
a match runs from a `<script` opener (with word boundary) to the first
subsequent closing tag; an opener with no closing tag does not match and is
left for the later HTML-tag pass. -/
def removeScripts : List Char → List Char
  | [] => []
  | c :: rest =>
    if scriptOpenAt (c :: rest) then
      match h : afterScriptClose (List.drop 6 rest) with
      | some rem => removeScripts rem
      | none => c :: removeScripts rest
    else c :: removeScripts rest
termination_by l => l.length
decreasing_by
  · have key : ∀ (l r : List Char), afterScriptClose l = some r → r.length < l.length := by
      intro l
      induction l with
      | nil => intro r hh; simp [afterScriptClose] at hh
      | cons a t ih =>
        intro r hh
        by_cases hm : matchesCI ['<', '/', 's', 'c', 'r', 'i', 'p', 't', '>'] (a :: t) = true
        · rw [afterScriptClose, if_pos hm] at hh
          have hr : r = List.drop 8 t := by injection hh with hx; exact hx.symm
          subst hr
          have hd := List.length_drop 8 t
          simp [hd]
          omega
        · rw [afterScriptClose, if_neg hm] at hh
          have ht := ih r hh
          simp
          omega
    have h1 := key _ _ h
    have h2 := List.length_drop 6 rest
    simp only [List.length_cons]
    omega
  · simp
  · simp

/-- The replacement of `<\/?[^>]+(>|$)` with the `g` flag.  The Boolean is
true while inside a tag body that is being dropped.  A lone `<` followed by
`>` or by the end of input matches nothing (`[^>]+` needs one character)
and is kept. -/
def removeTagsAux : Bool → List Char → List Char
  | false, [] => []
  | false, c :: rest =>
    if c = '<' then
      match rest with
      | [] => ['<']
      | d :: _ => if d = '>' then '<' :: removeTagsAux false rest
                  else removeTagsAux true rest
    else c :: removeTagsAux false rest
  | true, [] => []
  | true, c :: rest => if c = '>' then removeTagsAux false rest else removeTagsAux true rest

/-- HTML-tag removal on a character list. -/
def removeTags (l : List Char) : List Char := removeTagsAux false l

/-- The full sanitization pipeline of `sanitizeParamValue` (identical to
`sanitizeInput`) on a character list. -/
def sanitizeChars (l : List Char) : List Char :=
  jsTrim (collapseWs (removeTags (removeScripts
    ((l.filter (fun c => decide (c.toNat ≠ 0))).filter (fun c => !isStrippedCtrl c)))))

/-- The full sanitization pipeline on a string. -/
def sanitizeString (s : String) : String := ⟨sanitizeChars s.data⟩

/-! ## Tool-call validation (utils/toolValidation.ts) -/

/-- JSON-ish values carried by tool-call arguments. -/
inductive JsonVal where
  | str (s : String)
  | num (n : Int)
  | boolVal (b : Bool)
  | nullVal
  | arr (xs : List JsonVal)
  | obj (fields : List (String × JsonVal))

mutual

/-- Embeds `sanitizeParamValue`: strings are run through the sanitization
pipeline, plain objects are sanitized field-wise, and every other value —
including arrays, which the source explicitly excludes via
`!Array.isArray(value)` — is returned unchanged. -/
def sanitizeVal : JsonVal → JsonVal
  | .str s => .str (sanitizeString s)
  | .num n => .num n
  | .boolVal b => .boolVal b
  | .nullVal => .nullVal
  | .arr xs => .arr xs
  | .obj fields => .obj (sanitizeFields fields)

/-- Field-wise sanitization of an object, the recursive branch of
`sanitizeParamValue`. -/
def sanitizeFields : List (String × JsonVal) → List (String × JsonVal)
  | [] => []
  | (k, v) :: rest => (k, sanitizeVal v) :: sanitizeFields rest

end

/-- Key lookup in a JavaScript object literal (keys are unique). -/
def lookupField (fields : List (String × JsonVal)) (key : String) : Option JsonVal :=
  match fields with
  | [] => none
  | (k, v) :: rest => if k = key then some v else lookupField rest key

/-- Embeds `ContactMeParamsSchema.safeParse`: requires a string field
`reason` with `1 ≤ length ≤ 500` whose trim is non-empty; unknown keys are
stripped by `z.object`. -/
def parseContactMe (fields : List (String × JsonVal)) :
    Option (List (String × JsonVal)) :=
  match lookupField fields "reason" with
  | some (.str s) =>
    if 1 ≤ s.length ∧ s.length ≤ 500 ∧ 0 < (jsTrimString s).length then
      some [("reason", .str s)]
    else none
  | _ => none

/-- Embeds `VisitLinkedInParamsSchema.safeParse`: same shape over `intent`. -/
def parseVisitLinkedIn (fields : List (String × JsonVal)) :
    Option (List (String × JsonVal)) :=
  match lookupField fields "intent" with
  | some (.str s) =>
    if 1 ≤ s.length ∧ s.length ≤ 500 ∧ 0 < (jsTrimString s).length then
      some [("intent", .str s)]
    else none
  | _ => none

/-- Embeds `DownloadResumeParamsSchema.safeParse`: optional enum `format`
restricted to `pdf`, defaulting to `pdf` when absent. -/
def parseDownloadResume (fields : List (String × JsonVal)) :
    Option (List (String × JsonVal)) :=
  match lookupField fields "format" with
  | none => some [("format", .str "pdf")]
  | some (.str s) => if s = "pdf" then some [("format", .str "pdf")] else none
  | some _ => none

/-- The `ToolCall` of the shared types.  The name is kept as a string so
that the validator's `validToolNames.includes` check is meaningful. -/
structure ToolCall where
  id : String
  name : String
  arguments : List (String × JsonVal)

/-- Result record of `validateToolCall` (error messages abbreviated). -/
structure ToolValidationResult where
  isValid : Bool
  sanitized : Option ToolCall
  error : Option String

def validToolNames : List String := ["contact_me", "visit_linkedin", "download_resume"]

/-- Embeds `validateToolCall`: reject unknown tool names, sanitize the
arguments field-wise, then validate them against the per-tool schema;
on success return the tool call with the validated arguments. -/
def validateToolCall (toolCall : ToolCall) : ToolValidationResult :=
  if toolCall.name ∉ validToolNames then
    { isValid := false, sanitized := none,
      error := some ("Invalid tool name: " ++ toolCall.name) }
  else
    let sanitizedArgs := sanitizeFields toolCall.arguments
    let parsed : Option (List (String × JsonVal)) :=
      if toolCall.name = "contact_me" then parseContactMe sanitizedArgs
      else if toolCall.name = "visit_linkedin" then parseVisitLinkedIn sanitizedArgs
      else parseDownloadResume sanitizedArgs
    match parsed with
    | some validatedArgs =>
      { isValid := true, sanitized := some { toolCall with arguments := validatedArgs },
        error := none }
    | none => { isValid := false, sanitized := none, error := some "Invalid parameters" }

/-! ## Stream chunks and the stream-end tool-call emission -/

/-- A chunk yielded by the streaming AI service, as consumed by the chat
route: a text fragment or a fully assembled tool call. -/
inductive StreamChunk where
  | content (text : String)
  | toolCallChunk (toolCall : ToolCall)

/-- Modelled from the spec: the stream-end tool-call finalization of the
streaming orchestrator (spec section 4.7 step 5), whose implementation (the
tool-call-assembling variant of the AI service) is not among the sources;
only its validator and its consumer (the chat route) are.  On stream end
every accumulated tool call is passed through `validateToolCall` and only
accepted calls are emitted, one chunk per call, carrying the validator's
sanitized call. -/
def emitToolCalls (calls : List ToolCall) : List StreamChunk :=
  calls.filterMap (fun c =>
    let r := validateToolCall c
    if r.isValid then r.sanitized.map StreamChunk.toolCallChunk else none)

/-! ## Chat route (routes/chat.ts, the part_011 snapshot)

The route handler is modelled as a pure function of the request, the store
state, the invocation time, and the stream of chunks the AI service would
yield if called.  `upstreamCalled` records whether the model call is made.
The security middleware (rate limit, API token, Turnstile) runs before this
handler and is modelled separately; the handler's upstream-error catch
branch (the in-stream `error` event) is not modelled, no claim concerns
it. -/

/-- The parsed request body accepted by `ChatRequestSchema`. -/
structure ChatRequest where
  message : String
  sessionId : Option String

/-- `ChatRequestSchema` validation: a message of 1 to 1000 characters. -/
def validBody (req : ChatRequest) : Bool :=
  decide (1 ≤ req.message.length) && decide (req.message.length ≤ 1000)

/-- Wire events written by the handler.  `message` carries a raw text
fragment; JSON payloads of the other events are elided. -/
inductive ChatEvent where
  | message (data : String)
  | toolCallEvt (toolCall : ToolCall)
  | sessionLimit
  | done

/-- The handler's HTTP response: a plain JSON response (body elided, status
kept) or an SSE stream of events. -/
inductive ChatResponse where
  | json (status : Nat)
  | sse (events : List ChatEvent)

/-- The combined Redis state the chat path touches. -/
structure Store where
  sessions : SessionStore
  cache : String → Option String
  usage : UsageState

namespace cacheService

/-- Embeds `cacheService.get`: the Redis key is `hash(normalizeQuestion q)`;
`Bun.hash` is modelled as an injective key encoding, so the keyspace is
indexed by the normalized question itself.  Cache-entry TTLs are not
modelled; no claim depends on them. -/
def get (cache : String → Option String) (question : String) : Option String :=
  cache (normalizeQuestion question)

/-- Embeds `cacheService.set` under the same key encoding. -/
def set (cache : String → Option String) (question response : String) :
    String → Option String :=
  fun k => if k = normalizeQuestion question then some response else cache k

end cacheService

/-- JavaScript `cachedResponse.split(' ')`: split at every single space,
keeping empty segments. -/
def splitOnSpace : List Char → List (List Char)
  | [] => [[]]
  | c :: rest =>
    if c = ' ' then [] :: splitOnSpace rest
    else
      match splitOnSpace rest with
      | [] => [[c]]
      | w :: ws => (c :: w) :: ws

/-- The cache-hit streaming loop: each word of `cached.split(' ')` is
written as a `message` event with data `word + ' '`. -/
def cachedEvents (cached : String) : List ChatEvent :=
  (splitOnSpace cached.data).map (fun w => ChatEvent.message ⟨w ++ [' ']⟩)

/-- One iteration of the AI streaming loop: non-empty `content` chunks
become `message` events (empty content is falsy and skipped), `tool_call`
chunks are forwarded as `tool_call` events. -/
def streamChunkEvent : StreamChunk → Option ChatEvent
  | .content text => if text = "" then none else some (.message text)
  | .toolCallChunk toolCall => some (.toolCallEvt toolCall)

/-- The accumulated `fullResponse` buffer: concatenation of the content
fragments. -/
def chunksText : List StreamChunk → String
  | [] => ""
  | .content text :: rest => text ++ chunksText rest
  | .toolCallChunk _ :: rest => chunksText rest

/-- The session-limit guard at the top of the handler: runs only when the
request carries a `sessionId`. -/
def sessionLimitHit (req : ChatRequest) (st : Store) : Bool :=
  match req.sessionId with
  | some sid => sessionService.hasExceededLimit st.sessions sid
  | none => false

/-- Result of one invocation of the chat handler. -/
structure ChatResult where
  response : ChatResponse
  store : Store
  upstreamCalled : Bool

/-- Embeds `chatRoutes.post('/')`: body validation (400), the session-limit
short-circuit (`session_limit` + `done`, no state change), the cache-hit
branch (session bump only, cached words re-streamed, `done`), the usage
gate (lazy monthly reset, then 429 when exhausted), and the AI branch
(stream events, cache the text if non-empty, bump usage, bump the session,
`done`). -/
def chatPost (req : ChatRequest) (st : Store) (nowDate : JsDate) (nowSec : Nat)
    (aiChunks : List StreamChunk) : ChatResult :=
  if validBody req = false then
    { response := .json 400, store := st, upstreamCalled := false }
  else if sessionLimitHit req st then
    { response := .sse [ChatEvent.sessionLimit, ChatEvent.done], store := st,
      upstreamCalled := false }
  else
    match cacheService.get st.cache req.message with
    | some cached =>
      let st' : Store :=
        match req.sessionId with
        | some sid =>
          { st with sessions := (sessionService.incrementMessageCount st.sessions sid nowSec).2 }
        | none => st
      { response := .sse (cachedEvents cached ++ [ChatEvent.done]), store := st',
        upstreamCalled := false }
    | none =>
      let check := usageService.isWithinLimit st.usage nowDate
      let st₁ : Store := { st with usage := check.2 }
      if check.1 = false then
        { response := .json 429, store := st₁, upstreamCalled := false }
      else
        let events := aiChunks.filterMap streamChunkEvent
        let fullResponse := chunksText aiChunks
        let st₂ : Store :=
          if fullResponse = "" then st₁
          else { st₁ with cache := cacheService.set st₁.cache req.message fullResponse }
        let st₃ : Store := { st₂ with usage := usageService.increment st₂.usage }
        let st₄ : Store :=
          match req.sessionId with
          | some sid =>
            { st₃ with sessions := (sessionService.incrementMessageCount st₃.sessions sid nowSec).2 }
          | none => st₃
        { response := .sse (events ++ [ChatEvent.done]), store := st₄,
          upstreamCalled := true }

/-- The event list of a response (empty for plain JSON responses). -/
def eventsOfResponse : ChatResponse → List ChatEvent
  | .json _ => []
  | .sse events => events

/-- Concatenation of the data fields of the `message` events, as characters. -/
def messageDataChars : List ChatEvent → List Char
  | [] => []
  | .message d :: rest => d.data ++ messageDataChars rest
  | _ :: rest => messageDataChars rest

/-! ### Facts about the character classes -/

theorem toNat_charOfNat {n : Nat} (h : n < 0xD800) : (Char.ofNat n).toNat = n := by
  have hv : n.isValidChar := Or.inl h
  simp [Char.ofNat, hv, Char.ofNatAux, Char.toNat, UInt32.toNat, BitVec.toNat_ofNatLt]

theorem toNat_lowerChar_of_upper {c : Char} (h : isAsciiUpper c = true) :
    (lowerChar c).toNat = c.toNat + 32 := by
  have hb : 65 ≤ c.toNat ∧ c.toNat ≤ 90 := by
    simpa [isAsciiUpper, Bool.and_eq_true, decide_eq_true_eq] using h
  simp only [lowerChar, h, if_true]
  exact toNat_charOfNat (by omega)

theorem lowerChar_eq_self_of_not_upper {c : Char} (h : isAsciiUpper c = false) :
    lowerChar c = c := by
  simp [lowerChar, h]

theorem isAsciiUpper_lowerChar (c : Char) : isAsciiUpper (lowerChar c) = false := by
  by_cases h : isAsciiUpper c = true
  · have hb : 65 ≤ c.toNat ∧ c.toNat ≤ 90 := by
      simpa [isAsciiUpper, Bool.and_eq_true, decide_eq_true_eq] using h
    have ht := toNat_lowerChar_of_upper h
    unfold isAsciiUpper
    rw [ht]
    have hn : ¬(c.toNat + 32 ≤ 90) := by omega
    simp [hn]
  · have h' : isAsciiUpper c = false := by simpa using h
    rw [lowerChar_eq_self_of_not_upper h']
    exact h'

/-! ### Structure of `collapseWs` output -/


theorem collapseFrom_nil (b : Bool) : collapseFrom b [] = [] := rfl

theorem collapseFrom_space_true {c : Char} (h : isJsSpace c = true) (rest : List Char) :
    collapseFrom true (c :: rest) = collapseFrom true rest := by
  simp [collapseFrom, h]

theorem collapseFrom_space_false {c : Char} (h : isJsSpace c = true) (rest : List Char) :
    collapseFrom false (c :: rest) = ' ' :: collapseFrom true rest := by
  simp [collapseFrom, h]

theorem collapseFrom_nonspace {c : Char} (b : Bool) (h : isJsSpace c = false)
    (rest : List Char) : collapseFrom b (c :: rest) = c :: collapseFrom false rest := by
  simp [collapseFrom, h]

theorem mem_collapseFrom {c : Char} :
    ∀ (b : Bool) (l : List Char), c ∈ collapseFrom b l →
      c = ' ' ∨ (c ∈ l ∧ isJsSpace c = false) := by
  intro b l
  induction l generalizing b with
  | nil => intro h; simp [collapseFrom] at h
  | cons d rest ih =>
    intro h
    by_cases hd : isJsSpace d = true
    · cases b with
      | true =>
        rw [collapseFrom_space_true hd] at h
        rcases ih true h with h' | ⟨hm, hs⟩
        · exact Or.inl h'
        · exact Or.inr ⟨List.mem_cons_of_mem _ hm, hs⟩
      | false =>
        rw [collapseFrom_space_false hd] at h
        rcases List.mem_cons.mp h with h' | h'
        · exact Or.inl h'
        · rcases ih true h' with h'' | ⟨hm, hs⟩
          · exact Or.inl h''
          · exact Or.inr ⟨List.mem_cons_of_mem _ hm, hs⟩
    · have hd' : isJsSpace d = false := by simpa using hd
      rw [collapseFrom_nonspace b hd'] at h
      rcases List.mem_cons.mp h with h' | h'
      · refine Or.inr ⟨?_, ?_⟩
        · rw [h']; exact List.mem_cons_self _ _
        · rw [h']; exact hd'
      · rcases ih false h' with h'' | ⟨hm, hs⟩
        · exact Or.inl h''
        · exact Or.inr ⟨List.mem_cons_of_mem _ hm, hs⟩

theorem head_collapseFrom_true :
    ∀ (l : List Char) (c : Char), (collapseFrom true l).head? = some c →
      isJsSpace c = false := by
  intro l
  induction l with
  | nil => intro c h; simp [collapseFrom] at h
  | cons d rest ih =>
    intro c h
    by_cases hd : isJsSpace d = true
    · rw [collapseFrom_space_true hd] at h
      exact ih c h
    · have hd' : isJsSpace d = false := by simpa using hd
      rw [collapseFrom_nonspace true hd', List.head?_cons] at h
      have hc : d = c := by simpa using h
      rw [← hc]; exact hd'

theorem chain_collapseFrom : ∀ (b : Bool) (l : List Char),
    List.Chain' NoWsRun (collapseFrom b l) := by
  intro b l
  induction l generalizing b with
  | nil => simp [collapseFrom]
  | cons d rest ih =>
    by_cases hd : isJsSpace d = true
    · cases b with
      | true =>
        rw [collapseFrom_space_true hd]
        exact ih true
      | false =>
        rw [collapseFrom_space_false hd, List.chain'_cons']
        refine ⟨?_, ih true⟩
        intro y hy
        have hy' : isJsSpace y = false := head_collapseFrom_true rest y hy
        rintro ⟨_, h2⟩
        rw [hy'] at h2
        cases h2
    · have hd' : isJsSpace d = false := by simpa using hd
      rw [collapseFrom_nonspace b hd', List.chain'_cons']
      refine ⟨?_, ih false⟩
      intro y _
      rintro ⟨h1, _⟩
      rw [hd'] at h1
      cases h1

theorem collapseFrom_false_id : ∀ (l : List Char),
    List.Chain' NoWsRun l → (∀ c ∈ l, isJsSpace c = true → c = ' ') →
    collapseFrom false l = l := by
  intro l
  induction l with
  | nil => intro _ _; rfl
  | cons d rest ih =>
    intro hch hsp
    rw [List.chain'_cons'] at hch
    obtain ⟨hhd, hch'⟩ := hch
    have ihrest : collapseFrom false rest = rest :=
      ih hch' (fun c hc ht => hsp c (List.mem_cons_of_mem _ hc) ht)
    by_cases hd : isJsSpace d = true
    · have hd32 : d = ' ' := hsp d (List.mem_cons_self _ _) hd
      subst hd32
      rw [collapseFrom_space_false hd]
      cases rest with
      | nil => rfl
      | cons e rest' =>
        have he : isJsSpace e = false := by
          by_contra hcon
          have he' : isJsSpace e = true := by simpa using hcon
          exact hhd e (by simp) ⟨hd, he'⟩
        rw [collapseFrom_nonspace true he]
        rw [collapseFrom_nonspace false he] at ihrest
        have htail : collapseFrom false rest' = rest' := by
          injection ihrest
        rw [htail]
    · have hd' : isJsSpace d = false := by simpa using hd
      rw [collapseFrom_nonspace false hd', ihrest]

/-! ### Facts about the normalizer output -/

theorem jsTrimIsInfixOfInput (l : List Char) : jsTrim l <:+: l := by
  have h1 : trimLeft l <:+ l := List.dropWhile_suffix _
  have h2 : (trimLeft l).reverse.dropWhile isJsSpace <:+ (trimLeft l).reverse :=
    List.dropWhile_suffix _
  have h3 : jsTrim l <+: trimLeft l := by
    unfold jsTrim
    apply List.reverse_suffix.mp
    rw [List.reverse_reverse]
    exact h2
  exact h3.isInfix.trans h1.isInfix

theorem mem_normalizeQuestion {s : String} {c : Char}
    (h : c ∈ (normalizeQuestion s).data) :
    c = ' ' ∨ (isJsWordChar c = true ∧ isJsSpace c = false ∧ isAsciiUpper c = false) := by
  unfold normalizeQuestion at h
  simp only [collapseWs] at h
  rcases mem_collapseFrom false _ h with h' | ⟨hm, hs⟩
  · exact Or.inl h'
  · have hkeep : (isJsWordChar c || isJsSpace c) = true := by
      have hk := List.of_mem_filter hm
      simpa using hk
    have hmem : c ∈ jsTrim (lowerStr s.data) := List.mem_of_mem_filter hm
    have hml : c ∈ lowerStr s.data := (jsTrimIsInfixOfInput _).sublist.subset hmem
    obtain ⟨d, _, hd⟩ := List.mem_map.mp hml
    have hup : isAsciiUpper c = false := by rw [← hd]; exact isAsciiUpper_lowerChar d
    have hw : isJsWordChar c = true := by
      rcases (by simpa using hkeep : isJsWordChar c = true ∨ isJsSpace c = true) with hw | hsp
      · exact hw
      · rw [hsp] at hs; cases hs
    exact Or.inr ⟨hw, hs, hup⟩

theorem chain_normalizeQuestion (s : String) :
    List.Chain' NoWsRun (normalizeQuestion s).data :=
  chain_collapseFrom false _

theorem map_id_of {l : List Char} {f : Char → Char} (h : ∀ c ∈ l, f c = c) :
    l.map f = l := by
  induction l with
  | nil => rfl
  | cons a t ih =>
    rw [List.map_cons, h a (List.mem_cons_self _ _),
      ih (fun c hc => h c (List.mem_cons_of_mem _ hc))]

theorem filter_id_of {l : List Char} {p : Char → Bool} (h : ∀ c ∈ l, p c = true) :
    l.filter p = l := by
  induction l with
  | nil => rfl
  | cons a t ih =>
    rw [List.filter_cons_of_pos (h a (List.mem_cons_self _ _)),
      ih (fun c hc => h c (List.mem_cons_of_mem _ hc))]

/-- Renormalizing a normalized question only trims it: the second pass of
`normalizeQuestion` performs exactly `String.prototype.trim` on the first
pass's output. -/
theorem normalizeQuestion_normalizeQuestion (s : String) :
    normalizeQuestion (normalizeQuestion s) = jsTrimString (normalizeQuestion s) := by
  set M := normalizeQuestion s with hMdef
  have hchars : ∀ c ∈ M.data,
      c = ' ' ∨ (isJsWordChar c = true ∧ isJsSpace c = false ∧ isAsciiUpper c = false) := by
    intro c hc
    rw [hMdef] at hc
    exact mem_normalizeQuestion hc
  have hlower : lowerStr M.data = M.data := by
    unfold lowerStr
    apply map_id_of
    intro c hc
    rcases hchars c hc with h | ⟨_, _, hup⟩
    · rw [h]; rfl
    · exact lowerChar_eq_self_of_not_upper hup
  have htrimsub : ∀ c ∈ jsTrim M.data, c ∈ M.data :=
    fun c hc => (jsTrimIsInfixOfInput M.data).sublist.subset hc
  have hfilter :
      (jsTrim M.data).filter (fun c => isJsWordChar c || isJsSpace c) = jsTrim M.data := by
    apply filter_id_of
    intro c hc
    rcases hchars c (htrimsub c hc) with h | ⟨hw, _, _⟩
    · rw [h]; decide
    · rw [hw]; rfl
  have hspaces : ∀ c ∈ jsTrim M.data, isJsSpace c = true → c = ' ' := by
    intro c hc hs
    rcases hchars c (htrimsub c hc) with h | ⟨_, hns, _⟩
    · exact h
    · rw [hns] at hs; cases hs
  have hchain : List.Chain' NoWsRun (jsTrim M.data) := by
    have hMc := chain_normalizeQuestion s
    rw [← hMdef] at hMc
    exact hMc.infix (jsTrimIsInfixOfInput M.data)
  have hcollapse : collapseWs (jsTrim M.data) = jsTrim M.data :=
    collapseFrom_false_id _ hchain hspaces
  show normalizeQuestion M = jsTrimString M
  unfold normalizeQuestion jsTrimString
  rw [hlower, hfilter]
  exact congrArg String.mk hcollapse

theorem lookupField_sanitizeFields (fields : List (String × JsonVal)) (key : String) :
    lookupField (sanitizeFields fields) key = (lookupField fields key).map sanitizeVal := by
  induction fields with
  | nil => rfl
  | cons p rest ih =>
    obtain ⟨k, v⟩ := p
    by_cases hk : k = key
    · simp [sanitizeFields, lookupField, hk]
    · simp [sanitizeFields, lookupField, hk, ih]

theorem validateToolCall_contact_me {tc : ToolCall} (hname : tc.name = "contact_me") :
    validateToolCall tc =
      match parseContactMe (sanitizeFields tc.arguments) with
      | some validatedArgs =>
        { isValid := true, sanitized := some { tc with arguments := validatedArgs },
          error := none }
      | none => { isValid := false, sanitized := none, error := some "Invalid parameters" } := by
  unfold validateToolCall
  rw [hname]
  simp [validToolNames]

/-! ## Supporting lemmas about the route model -/

theorem splitOnSpace_ne_nil : ∀ l : List Char, splitOnSpace l ≠ [] := by
  intro l
  cases l with
  | nil => simp [splitOnSpace]
  | cons c rest =>
    by_cases hc : c = ' '
    · simp [splitOnSpace, hc]
    · simp only [splitOnSpace, hc, if_false]
      cases hsp : splitOnSpace rest <;> simp

theorem messageDataChars_splitWords (l : List Char) :
    messageDataChars ((splitOnSpace l).map (fun w => ChatEvent.message ⟨w ++ [' ']⟩)) =
      l ++ [' '] := by
  induction l with
  | nil => rfl
  | cons c rest ih =>
    by_cases hc : c = ' '
    · subst hc
      simp only [splitOnSpace, if_pos rfl, List.map_cons]
      simp only [messageDataChars]
      rw [ih]
      rfl
    · obtain ⟨w, ws, hsp⟩ : ∃ w ws, splitOnSpace rest = w :: ws := by
        cases h : splitOnSpace rest with
        | nil => exact absurd h (splitOnSpace_ne_nil rest)
        | cons w ws => exact ⟨w, ws, rfl⟩
      rw [hsp, List.map_cons] at ih
      simp only [splitOnSpace, hc, if_false, hsp, List.map_cons]
      simp only [messageDataChars] at ih ⊢
      simp only [List.cons_append, List.append_assoc] at ih ⊢
      rw [ih]

/-- The concatenated data of the cache-hit `message` events is the cached
text plus one trailing space. -/
theorem messageDataChars_cachedEvents (cached : String) :
    messageDataChars (cachedEvents cached) = cached.data ++ [' '] :=
  messageDataChars_splitWords cached.data

theorem cachedEvents_are_messages (cached : String) :
    ∀ e ∈ cachedEvents cached, ∃ d, e = ChatEvent.message d := by
  intro e he
  obtain ⟨w, _, hw⟩ := List.mem_map.mp he
  exact ⟨_, hw.symm⟩

theorem sessionLimit_not_mem_cachedEvents (cached : String) :
    ChatEvent.sessionLimit ∉ cachedEvents cached := by
  intro h
  obtain ⟨d, hd⟩ := cachedEvents_are_messages cached _ h
  cases hd

theorem streamChunkEvent_ne_sessionLimit (c : StreamChunk) (e : ChatEvent)
    (h : streamChunkEvent c = some e) : e ≠ ChatEvent.sessionLimit := by
  cases c with
  | content t =>
    by_cases ht : t = ""
    · simp [streamChunkEvent, ht] at h
    · simp [streamChunkEvent, ht] at h
      rw [← h]
      intro hcon
      cases hcon
  | toolCallChunk tc =>
    simp [streamChunkEvent] at h
    rw [← h]
    intro hcon
    cases hcon

/-- The cache-hit branch of the handler, in closed form. -/
theorem chatPost_cache_hit (req : ChatRequest) (st : Store) (nowDate : JsDate)
    (nowSec : Nat) (aiChunks : List StreamChunk) (cached : String)
    (hv : validBody req = true)
    (hns : sessionLimitHit req st = false)
    (hc : cacheService.get st.cache req.message = some cached) :
    chatPost req st nowDate nowSec aiChunks =
      { response := .sse (cachedEvents cached ++ [ChatEvent.done]),
        store :=
          match req.sessionId with
          | some sid =>
            { st with
              sessions := (sessionService.incrementMessageCount st.sessions sid nowSec).2 }
          | none => st,
        upstreamCalled := false } := by
  simp [chatPost, hv, hns, hc]

/-! ## Claim theorems -/

/-- C8 counterexample: `normalizeQuestion` is not idempotent.  Since the
trim runs before punctuation removal, `normalizeQuestion "a !"` is the
string `"a "` with a trailing space, and normalizing it again yields
`"a"`. -/
theorem normalizeQuestion_not_idempotent_cex :
    normalizeQuestion (normalizeQuestion "a !") ≠ normalizeQuestion "a !" := by
  decide

/-- C8 (amended): `normalizeQuestion` is idempotent up to a final trim —
renormalizing a normalized question performs exactly
`String.prototype.trim`, so a second pass can only strip a residual
leading/trailing space left where punctuation separated from the text by
whitespace was removed after the trim had already run; and normalization
is insensitive to the casing and punctuation differences of the spec's
example, `normalize("What's up?") = normalize("whats up")`. -/
theorem normalizeQuestion_idempotent_up_to_trim :
    (∀ s : String,
      normalizeQuestion (normalizeQuestion s) = jsTrimString (normalizeQuestion s)) ∧
    normalizeQuestion "What\x27s up?" = normalizeQuestion "whats up" :=
  ⟨normalizeQuestion_normalizeQuestion, by decide⟩

/-- C4: evaluation at the failing input.  Invoked on 2025-01-31 (local
noon) with `resetAt` unset, `checkAndResetMonthly` zeroes the counter but
sets `resetAt` to 2025-03-01T00:00 — the first instant of the month after
next — instead of the first instant of the next calendar month,
2025-02-01T00:00, because JavaScript `setMonth` normalizes January 31 plus
one month to March 3 before `setDate(1)` runs. -/
theorem checkAndResetMonthly_rolls_past_february :
    usageService.checkAndResetMonthly { count := 7, resetAt := none }
        { year := 2025, month := 0, day := 31, msOfDay := 43200000 } =
      { count := 0, resetAt := some { year := 2025, month := 2, day := 1, msOfDay := 0 } } ∧
    firstOfNextMonth { year := 2025, month := 0, day := 31, msOfDay := 43200000 } =
      { year := 2025, month := 1, day := 1, msOfDay := 0 } ∧
    nextResetDate { year := 2025, month := 0, day := 31, msOfDay := 43200000 } ≠
      firstOfNextMonth { year := 2025, month := 0, day := 31, msOfDay := 43200000 } := by
  refine ⟨by decide, by decide, by decide⟩

/-- C6: at or over the limit the middleware answers 429 without touching
the bucket; under the limit it increments the counter, and installs the
window TTL exactly when the incremented value is 1 (the first increment of
a fresh key), leaving an existing TTL alone otherwise. -/
theorem rateLimitMiddleware_limit_behavior (bucket : RateLimitBucket)
    (limit windowMs : Nat) :
    (limit ≤ bucket.count.getD 0 →
      rateLimitMiddleware bucket limit windowMs none = (.rejected429, bucket)) ∧
    (bucket.count.getD 0 < limit →
      rateLimitMiddleware bucket limit windowMs none =
        (.allowed,
          { count := some (bucket.count.getD 0 + 1),
            ttlSec :=
              if bucket.count.getD 0 + 1 = 1 then some (windowMs / 1000)
              else bucket.ttlSec })) := by
  constructor
  · intro h
    simp [rateLimitMiddleware, h]
  · intro h
    have h' : ¬(bucket.count.getD 0 ≥ limit) := by omega
    by_cases h1 : bucket.count.getD 0 + 1 = 1
    · simp [rateLimitMiddleware, h', h1]
    · simp [rateLimitMiddleware, h', h1]

/-- C6 witness: a fresh bucket under limit 3 is allowed, its counter is
created at 1, and the 60-second window TTL is installed. -/
theorem rateLimitMiddleware_limit_behavior_witness :
    (0 : Nat) < 3 ∧
    rateLimitMiddleware { count := none, ttlSec := none } 3 60000 none =
      (.allowed, { count := some 1, ttlSec := some 60 }) := by
  refine ⟨by decide, ?_⟩
  have h :=
    (rateLimitMiddleware_limit_behavior { count := none, ttlSec := none } 3 60000).2
      (by decide)
  simpa using h

/-- C7 counterexample: the session-store TTL is refreshed by activity.  A
record created at time 0 carries expiry deadline `SESSION_TTL`; one
`incrementMessageCount` at time 100 rewrites it with deadline
`100 + SESSION_TTL`, so the expiry deadline did not stay unchanged. -/
theorem incrementMessageCount_refreshes_ttl_cex :
    (sessionService.createSession (fun _ => none) "s" 0).2 "s" =
      some ({ sessionId := "s", messageCount := 0, createdAt := 0, lastActivityAt := 0 },
            SESSION_TTL) ∧
    (sessionService.incrementMessageCount
        (sessionService.createSession (fun _ => none) "s" 0).2 "s" 100).2 "s" =
      some ({ sessionId := "s", messageCount := 1, createdAt := 0, lastActivityAt := 100 },
            100 + SESSION_TTL) ∧
    100 + SESSION_TTL ≠ SESSION_TTL := by
  refine ⟨by decide, by decide, by decide⟩

/-- C7 (amended): `incrementMessageCount` bumps `messageCount`, updates
`lastActivityAt`, and re-sets the record's store TTL to the full
`SESSION_TTL`: the expiry deadline becomes `now + SESSION_TTL`, a sliding
expiry refreshed by every activity rather than an unchanged absolute
deadline. -/
theorem incrementMessageCount_sliding_ttl (store : SessionStore) (sid : String)
    (now : Nat) (sess : SessionInfo) (deadline : Nat)
    (h : store sid = some (sess, deadline)) :
    (sessionService.incrementMessageCount store sid now).2 sid =
      some ({ sess with messageCount := sess.messageCount + 1, lastActivityAt := now },
            now + SESSION_TTL) ∧
    (sessionService.incrementMessageCount store sid now).1 = sess.messageCount + 1 := by
  unfold sessionService.incrementMessageCount sessionService.getSession
  rw [h]
  simp

/-- C7 witness: a stored record with messageCount 4 and deadline 777,
incremented at time 100, is rewritten with count 5 and deadline
`100 + SESSION_TTL`. -/
theorem incrementMessageCount_sliding_ttl_witness :
    (sessionService.incrementMessageCount
        (fun k => if k = "s" then
          some ({ sessionId := "s", messageCount := 4, createdAt := 0,
                  lastActivityAt := 0 }, 777)
          else none) "s" 100).2 "s" =
      some ({ sessionId := "s", messageCount := 5, createdAt := 0, lastActivityAt := 100 },
            100 + SESSION_TTL) := by
  have h := incrementMessageCount_sliding_ttl
    (fun k => if k = "s" then
      some ({ sessionId := "s", messageCount := 4, createdAt := 0,
              lastActivityAt := 0 }, 777)
      else none) "s" 100
    { sessionId := "s", messageCount := 4, createdAt := 0, lastActivityAt := 0 } 777
    (by decide)
  exact h.1

/-- C9: the two store-failure policies are deliberately asymmetric: any
rate-limiter Redis call that actually throws during the request lands in
the catch handler and the request is allowed through (fail open), while a
failing or timed-out quota check on `GET /status` answers
`available = false` in production and `available = true` otherwise. -/
theorem storeFailure_policy_asymmetric :
    (∀ (bucket : RateLimitBucket) (limit windowMs : Nat)
      (failure : Option StoreFailure),
      throwsDuring bucket limit failure →
      (rateLimitMiddleware bucket limit windowMs failure).1 = .allowed) ∧
    (∀ (u : UsageState) (now : JsDate),
      (statusAvailability u now true true).1 = false ∧
      (statusAvailability u now true false).1 = true) := by
  constructor
  · intro bucket limit windowMs failure hthrow
    match failure with
    | none => cases hthrow
    | some .atGet => rfl
    | some .atIncr =>
      simp only [throwsDuring] at hthrow
      have h' : ¬(bucket.count.getD 0 ≥ limit) := by omega
      simp [rateLimitMiddleware, h']
    | some .atExpire =>
      simp only [throwsDuring] at hthrow
      obtain ⟨h1, h2⟩ := hthrow
      have h' : ¬(bucket.count.getD 0 ≥ limit) := by omega
      simp [rateLimitMiddleware, h', h2]
  · intro u now
    exact ⟨rfl, rfl⟩

/-- C9 witness: a throwing counter read on a fresh bucket is allowed
through, and a failing production status check reports unavailable. -/
theorem storeFailure_policy_asymmetric_witness :
    throwsDuring { count := none, ttlSec := none } 3 (some StoreFailure.atGet) ∧
    (rateLimitMiddleware { count := none, ttlSec := none } 3 60000
        (some StoreFailure.atGet)).1 = .allowed ∧
    (statusAvailability { count := 0, resetAt := none }
        { year := 2025, month := 9, day := 11, msOfDay := 0 } true true).1 = false := by
  refine ⟨trivial, ?_, ?_⟩
  · exact storeFailure_policy_asymmetric.1 _ 3 60000 _ trivial
  · exact (storeFailure_policy_asymmetric.2 { count := 0, resetAt := none }
      { year := 2025, month := 9, day := 11, msOfDay := 0 }).1

/-- C2: a schema-valid chat request whose `sessionId` refers to a stored
session with `messageCount ≥ MAX_MESSAGES_PER_SESSION` is answered with
the SSE stream `session_limit` followed by `done`; the store is left
untouched and no upstream model call is made. -/
theorem chatPost_session_limit_short_circuit (req : ChatRequest) (st : Store)
    (nowDate : JsDate) (nowSec : Nat) (aiChunks : List StreamChunk)
    (sid : String) (sess : SessionInfo) (deadline : Nat)
    (hv : validBody req = true)
    (hsid : req.sessionId = some sid)
    (hsess : st.sessions sid = some (sess, deadline))
    (hcount : MAX_MESSAGES_PER_SESSION ≤ sess.messageCount) :
    chatPost req st nowDate nowSec aiChunks =
      { response := .sse [ChatEvent.sessionLimit, ChatEvent.done], store := st,
        upstreamCalled := false } := by
  have hlim : sessionLimitHit req st = true := by
    unfold sessionLimitHit
    rw [hsid]
    show sessionService.hasExceededLimit st.sessions sid = true
    unfold sessionService.hasExceededLimit sessionService.getSession
    rw [hsess]
    show decide (sess.messageCount ≥ MAX_MESSAGES_PER_SESSION) = true
    exact decide_eq_true hcount
  simp [chatPost, hv, hlim]

/-- C2 witness: a request on a session stored with `messageCount = 30` is
short-circuited to `session_limit` and `done` with no state change. -/
theorem chatPost_session_limit_short_circuit_witness :
    chatPost { message := "hi", sessionId := some "s" }
      { sessions := fun k =>
          if k = "s" then
            some ({ sessionId := "s", messageCount := 30, createdAt := 0,
                    lastActivityAt := 0 }, 604800)
          else none,
        cache := fun _ => none,
        usage := { count := 0, resetAt := none } }
      { year := 2025, month := 9, day := 11, msOfDay := 0 } 0 [] =
      { response := .sse [ChatEvent.sessionLimit, ChatEvent.done],
        store :=
          { sessions := fun k =>
              if k = "s" then
                some ({ sessionId := "s", messageCount := 30, createdAt := 0,
                        lastActivityAt := 0 }, 604800)
              else none,
            cache := fun _ => none,
            usage := { count := 0, resetAt := none } },
        upstreamCalled := false } := by
  exact chatPost_session_limit_short_circuit _ _ _ _ _ "s"
    { sessionId := "s", messageCount := 30, createdAt := 0, lastActivityAt := 0 } 604800
    (by decide) rfl (by decide) (by decide)

/-- C3 counterexample: a conversation answered from the cache completes
(the cached words are re-streamed, then `done`) with no upstream call, yet
the usage counter does not move: it stays at 5 rather than being
incremented to 6, so a cache hit does not count against the usage
counter. -/
theorem cache_hit_does_not_increment_usage_cex :
    (let r := chatPost { message := "hello", sessionId := none }
      { sessions := fun _ => none,
        cache := fun k => if k = "hello" then some "Hello there" else none,
        usage := { count := 5, resetAt := none } }
      { year := 2025, month := 9, day := 11, msOfDay := 0 } 0 []
     r.response = .sse (cachedEvents "Hello there" ++ [ChatEvent.done]) ∧
     r.upstreamCalled = false ∧
     r.store.usage.count = 5 ∧ (5 : Nat) ≠ 5 + 1) := by
  exact ⟨rfl, rfl, rfl, by decide⟩

/-- The AI branch of the handler, in closed form. -/
theorem chatPost_ai_branch (req : ChatRequest) (st : Store) (nowDate : JsDate)
    (nowSec : Nat) (aiChunks : List StreamChunk)
    (hv : validBody req = true)
    (hns : sessionLimitHit req st = false)
    (hc : cacheService.get st.cache req.message = none)
    (hok : (usageService.isWithinLimit st.usage nowDate).1 = true) :
    chatPost req st nowDate nowSec aiChunks =
      (let st₁ : Store := { st with usage := (usageService.isWithinLimit st.usage nowDate).2 }
       let fullResponse := chunksText aiChunks
       let st₂ : Store :=
         if fullResponse = "" then st₁
         else { st₁ with cache := cacheService.set st₁.cache req.message fullResponse }
       let st₃ : Store := { st₂ with usage := usageService.increment st₂.usage }
       let st₄ : Store :=
         match req.sessionId with
         | some sid =>
           { st₃ with sessions := (sessionService.incrementMessageCount st₃.sessions sid nowSec).2 }
         | none => st₃
       { response := .sse (aiChunks.filterMap streamChunkEvent ++ [ChatEvent.done]),
         store := st₄, upstreamCalled := true }) := by
  simp [chatPost, hv, hns, hc, hok]

/-- C3 (amended): the usage counter is incremented exactly once per
upstream-served conversation — on the AI branch the final count is the
post-monthly-check count plus one — while a conversation served from the
cache leaves the usage state entirely untouched (only the session message
count is bumped). -/
theorem chatPost_usage_bookkeeping (req : ChatRequest) (st : Store) (nowDate : JsDate)
    (nowSec : Nat) (aiChunks : List StreamChunk)
    (hv : validBody req = true)
    (hns : sessionLimitHit req st = false) :
    (∀ cached, cacheService.get st.cache req.message = some cached →
      (chatPost req st nowDate nowSec aiChunks).store.usage = st.usage ∧
      (chatPost req st nowDate nowSec aiChunks).upstreamCalled = false) ∧
    (cacheService.get st.cache req.message = none →
      (usageService.isWithinLimit st.usage nowDate).1 = true →
      (chatPost req st nowDate nowSec aiChunks).store.usage.count =
        (usageService.isWithinLimit st.usage nowDate).2.count + 1 ∧
      (chatPost req st nowDate nowSec aiChunks).upstreamCalled = true) := by
  constructor
  · intro cached hc
    rw [chatPost_cache_hit req st nowDate nowSec aiChunks cached hv hns hc]
    cases hsid : req.sessionId <;> simp
  · intro hc hok
    rw [chatPost_ai_branch req st nowDate nowSec aiChunks hv hns hc hok]
    cases hsid : req.sessionId <;>
      by_cases hfull : chunksText aiChunks = "" <;>
        simp [hfull, usageService.increment]

/-- C3 witness: on a cache hit the returned usage state equals the stored
one (count 5, no reset date). -/
theorem chatPost_usage_bookkeeping_witness :
    (chatPost { message := "hello", sessionId := none }
      { sessions := fun _ => none,
        cache := fun k => if k = "hello" then some "Hello there" else none,
        usage := { count := 5, resetAt := none } }
      { year := 2025, month := 9, day := 11, msOfDay := 0 } 0 []).store.usage =
      ({ count := 5, resetAt := none } : UsageState) := by
  have h := (chatPost_usage_bookkeeping { message := "hello", sessionId := none }
    { sessions := fun _ => none,
      cache := fun k => if k = "hello" then some "Hello there" else none,
      usage := { count := 5, resetAt := none } }
    { year := 2025, month := 9, day := 11, msOfDay := 0 } 0 []
    (by decide) rfl).1 "Hello there" (by decide)
  exact h.1

/-- C5 counterexample: with cached answer `"Hi"` the cache-hit stream's
`message` data concatenate to `"Hi "` — the cached text plus a trailing
space — not exactly the cached text. -/
theorem cache_hit_concat_trailing_space_cex :
    messageDataChars (eventsOfResponse (chatPost { message := "Hi", sessionId := none }
      { sessions := fun _ => none,
        cache := fun k => if k = "hi" then some "Hi" else none,
        usage := { count := 0, resetAt := none } }
      { year := 2025, month := 9, day := 11, msOfDay := 0 } 0 []).response) ≠
      ("Hi" : String).data := by
  decide

/-- C5 (amended): a schema-valid request that hits the cache (and does not
trip the session limit) is answered by the cache-hit stream: `message`
events only, whose data concatenate to exactly the cached answer text
followed by a single trailing space, then the `done` sentinel, with no
upstream model call. -/
theorem chatPost_cache_hit_stream (req : ChatRequest) (st : Store) (nowDate : JsDate)
    (nowSec : Nat) (aiChunks : List StreamChunk) (cached : String)
    (hv : validBody req = true)
    (hns : sessionLimitHit req st = false)
    (hc : cacheService.get st.cache req.message = some cached) :
    (chatPost req st nowDate nowSec aiChunks).response =
      .sse (cachedEvents cached ++ [ChatEvent.done]) ∧
    (chatPost req st nowDate nowSec aiChunks).upstreamCalled = false ∧
    (∀ e ∈ cachedEvents cached, ∃ d, e = ChatEvent.message d) ∧
    messageDataChars (cachedEvents cached) = cached.data ++ [' '] := by
  rw [chatPost_cache_hit req st nowDate nowSec aiChunks cached hv hns hc]
  exact ⟨rfl, rfl, cachedEvents_are_messages cached, messageDataChars_cachedEvents cached⟩

/-- C5 witness: with cached text `"Hi"` the stream is the cached words plus
`done` and the data concatenation is `"Hi"` plus one space. -/
theorem chatPost_cache_hit_stream_witness :
    (chatPost { message := "Hi", sessionId := none }
      { sessions := fun _ => none,
        cache := fun k => if k = "hi" then some "Hi" else none,
        usage := { count := 0, resetAt := none } }
      { year := 2025, month := 9, day := 11, msOfDay := 0 } 0 []).response =
      .sse (cachedEvents "Hi" ++ [ChatEvent.done]) ∧
    messageDataChars (cachedEvents "Hi") = ("Hi" : String).data ++ [' '] := by
  have h := chatPost_cache_hit_stream { message := "Hi", sessionId := none }
    { sessions := fun _ => none,
      cache := fun k => if k = "hi" then some "Hi" else none,
      usage := { count := 0, resetAt := none } }
    { year := 2025, month := 9, day := 11, msOfDay := 0 } 0 [] "Hi"
    (by decide) rfl (by decide)
  exact ⟨h.1, h.2.2.2⟩

/-- C10: when the request omits `sessionId` the session store is neither
read nor written — the handler's outcome is identical for any session
keyspace contents, whose value is passed through unchanged — and the
response can never contain a `session_limit` event. -/
theorem chatPost_no_session_use_without_sessionId (req : ChatRequest) (st : Store)
    (nowDate : JsDate) (nowSec : Nat) (aiChunks : List StreamChunk)
    (hsid : req.sessionId = none) :
    (∀ s' : SessionStore,
      chatPost req { st with sessions := s' } nowDate nowSec aiChunks =
        (let r := chatPost req st nowDate nowSec aiChunks
         { r with store := { r.store with sessions := s' } })) ∧
    ChatEvent.sessionLimit ∉
      eventsOfResponse (chatPost req st nowDate nowSec aiChunks).response := by
  have hlim : ∀ stx : Store, sessionLimitHit req stx = false := by
    intro stx
    simp [sessionLimitHit, hsid]
  constructor
  · intro s'
    by_cases hv : validBody req = false
    · simp [chatPost, hv]
    · cases hc : cacheService.get st.cache req.message with
      | some cached =>
        simp [chatPost, hv, hlim, hsid, hc]
      | none =>
        by_cases hq : (usageService.isWithinLimit st.usage nowDate).1 = false
        · simp [chatPost, hv, hlim, hsid, hc, hq]
        · by_cases hfull : chunksText aiChunks = "" <;>
            simp [chatPost, hv, hlim, hsid, hc, hq, hfull]
  · by_cases hv : validBody req = false
    · simp [chatPost, hv, eventsOfResponse]
    · have hv' : validBody req = true := by simpa using hv
      cases hc : cacheService.get st.cache req.message with
      | some cached =>
        rw [chatPost_cache_hit req st nowDate nowSec aiChunks cached hv' (hlim st) hc]
        simp only [eventsOfResponse, List.mem_append]
        rintro (hmem | hmem)
        · exact sessionLimit_not_mem_cachedEvents cached hmem
        · simp at hmem
      | none =>
        by_cases hq : (usageService.isWithinLimit st.usage nowDate).1 = false
        · simp [chatPost, hv, hlim, hc, hq, eventsOfResponse]
        · have hq' : (usageService.isWithinLimit st.usage nowDate).1 = true := by
            simpa using hq
          rw [chatPost_ai_branch req st nowDate nowSec aiChunks hv' (hlim st) hc hq']
          simp only [eventsOfResponse, List.mem_append]
          rintro (hmem | hmem)
          · obtain ⟨c, _, hfc⟩ := List.mem_filterMap.mp hmem
            exact streamChunkEvent_ne_sessionLimit c _ hfc rfl
          · simp at hmem

/-- C10 witness: with no `sessionId`, swapping in a different session store
does not change the outcome, the sessions keyspace is passed through, and
no `session_limit` event is produced. -/
theorem chatPost_no_session_use_without_sessionId_witness :
    ChatEvent.sessionLimit ∉
      eventsOfResponse (chatPost { message := "Hey", sessionId := none }
        { sessions := fun _ => none,
          cache := fun _ => none,
          usage := { count := 0, resetAt := none } }
        { year := 2025, month := 9, day := 11, msOfDay := 0 } 0 []).response := by
  exact (chatPost_no_session_use_without_sessionId { message := "Hey", sessionId := none }
    { sessions := fun _ => none,
      cache := fun _ => none,
      usage := { count := 0, resetAt := none } }
    { year := 2025, month := 9, day := 11, msOfDay := 0 } 0 [] rfl).2

/-- C1: a `contact_me` tool call whose `reason`, after sanitization, is
empty, whitespace-only, or longer than 500 characters is rejected by
`validateToolCall` and contributes no chunk to the stream-end emission
wherever it occurs; and every emitted `tool_call` chunk originates from a
validator-accepted call, one chunk per call, carrying the sanitized
call. -/
theorem contact_me_invalid_reason_never_emitted (tc : ToolCall)
    (hname : tc.name = "contact_me")
    (hbad : ∃ r, lookupField tc.arguments "reason" = some (.str r) ∧
      ((jsTrimString (sanitizeString r)).length = 0 ∨ 500 < (sanitizeString r).length)) :
    (validateToolCall tc).isValid = false ∧
    (∀ pre post, emitToolCalls (pre ++ tc :: post) = emitToolCalls (pre ++ post)) ∧
    (∀ calls chunk, chunk ∈ emitToolCalls calls →
      ∃ c s, c ∈ calls ∧ (validateToolCall c).isValid = true ∧
        (validateToolCall c).sanitized = some s ∧
        chunk = StreamChunk.toolCallChunk s) := by
  obtain ⟨r, hr, hcond⟩ := hbad
  have hlook : lookupField (sanitizeFields tc.arguments) "reason" =
      some (JsonVal.str (sanitizeString r)) := by
    rw [lookupField_sanitizeFields, hr]
    simp [sanitizeVal]
  have hparse : parseContactMe (sanitizeFields tc.arguments) = none := by
    unfold parseContactMe
    rw [hlook]
    dsimp only
    rw [if_neg]
    rintro ⟨h1, h2, h3⟩
    rcases hcond with hc0 | hc500
    · omega
    · omega
  have hinvalid : (validateToolCall tc).isValid = false := by
    rw [validateToolCall_contact_me hname, hparse]
  refine ⟨hinvalid, ?_, ?_⟩
  · intro pre post
    unfold emitToolCalls
    rw [List.filterMap_append, List.filterMap_append, List.filterMap_cons]
    simp [hinvalid]
  · intro calls chunk hmem
    unfold emitToolCalls at hmem
    obtain ⟨c, hc, hfc⟩ := List.mem_filterMap.mp hmem
    by_cases hvalid : (validateToolCall c).isValid = true
    · cases hs : (validateToolCall c).sanitized with
      | none => simp [hvalid, hs] at hfc
      | some s =>
        simp only [hvalid, hs, if_true, Option.map_some'] at hfc
        exact ⟨c, s, hc, hvalid, hs, (Option.some.injEq _ _ ▸ hfc).symm⟩
    · have hvf : (validateToolCall c).isValid = false := by simpa using hvalid
      simp [hvf] at hfc

/-- C1 witness: a `contact_me` call with empty `reason` is invalid, and a
stream containing only that call emits nothing. -/
theorem contact_me_invalid_reason_never_emitted_witness :
    (validateToolCall
      { id := "call_1", name := "contact_me",
        arguments := [("reason", JsonVal.str "")] }).isValid = false ∧
    emitToolCalls
      [{ id := "call_1", name := "contact_me",
         arguments := [("reason", JsonVal.str "")] }] = [] := by
  have h := contact_me_invalid_reason_never_emitted
    { id := "call_1", name := "contact_me", arguments := [("reason", JsonVal.str "")] }
    rfl
    ⟨"", rfl, Or.inl (by
      simp [sanitizeString, sanitizeChars, removeScripts, removeTags, removeTagsAux,
        collapseWs, collapseFrom, jsTrim, trimLeft, jsTrimString])⟩
  refine ⟨h.1, ?_⟩
  have h2 := h.2.1 [] []
  simpa [emitToolCalls] using h2

end PortfolioChatbot
